import Mathlib

/-!
Verification development for the neuroapi-sdk streaming pipeline.

Shallow embedding of:
- the SSE frame parser (`SSEParser.parse` in src/core/streaming),
- the stream processor loop (`StreamProcessor.processStream`),
- the typed event emitter (`EventEmitter.emit` in src/core/events),
- the chat streaming runner (`ChatCompletionStreamingRunner`) and the
  completion streaming runner (`CompletionStreamingRunner`),
- the pull-based async iterator and the `done()` promise of the runners.

Strings handled character-by-character (the SSE wire format) are modelled as
`List Char`; JSON payload strings are modelled as `String`.
-/

namespace NeuroapiSdk

/-! ## SSE frame parser (class SSEParser) -/

/-- One parsed SSE frame, mirroring `interface StreamEvent {data, event?, id?, retry?}`. -/
structure SSEFrame where
  data : List Char
  event : Option (List Char) := none
  id : Option (List Char) := none
  retry : Option Int := none
deriving DecidableEq, Repr

/-- The in-progress frame accumulator: `let currentEvent: Partial<StreamEvent> = {}`.
All fields optional, `data` included. -/
structure CurrentEvent where
  data : Option (List Char) := none
  event : Option (List Char) := none
  id : Option (List Char) := none
  retry : Option Int := none
deriving DecidableEq, Repr

/-- JavaScript `str.split("\n")` on a character list: always returns at least one
(possibly empty) segment, with a trailing empty segment when the input ends in a newline. -/
def splitLines : List Char → List (List Char)
  | [] => [[]]
  | c :: rest =>
    match splitLines rest with
    | [] => [[]]
    | l :: ls => if c = '\n' then [] :: l :: ls else (c :: l) :: ls

/-- JavaScript `String.prototype.trim` on a character list. -/
def trimChars (l : List Char) : List Char :=
  ((l.dropWhile Char.isWhitespace).reverse.dropWhile Char.isWhitespace).reverse

/-- JavaScript `parseInt(value, 10)`: optional sign, then a digit prefix;
`none` models `NaN` (no digits). Trailing garbage is ignored. -/
def parseIntJS (l : List Char) : Option Int :=
  let core : List Char → Option Nat := fun cs =>
    match cs.takeWhile Char.isDigit with
    | [] => none
    | ds => some (ds.foldl (fun n c => n * 10 + (c.toNat - 48)) 0)
  match l with
  | '-' :: rest => (core rest).map (fun n => -(n : Int))
  | '+' :: rest => (core rest).map (fun n => (n : Int))
  | _ => (core l).map (fun n => (n : Int))

/-- Split a line at its first colon: `line.indexOf(":")`, `line.slice(0, i)`,
`line.slice(i + 1)`. Returns `none` when the line has no colon. -/
def splitAtColon (line : List Char) : Option (List Char × List Char) :=
  match line.dropWhile (fun c => c ≠ ':') with
  | [] => none
  | _ :: after => some (line.takeWhile (fun c => c ≠ ':'), after)

/-- The `switch (field)` of `SSEParser.parse`: assign the recognized field
(overwriting, not appending), ignore unknown fields. -/
def applyField (cur : CurrentEvent) (field value : List Char) : CurrentEvent :=
  if field = "data".toList then { cur with data := some value }
  else if field = "event".toList then { cur with event := some value }
  else if field = "id".toList then { cur with id := some value }
  else if field = "retry".toList then { cur with retry := parseIntJS value }
  else cur

/-- One iteration of the `for (const line of lines)` loop of `SSEParser.parse`:
a blank line emits the accumulated frame when `data` is set and resets the
accumulator; a non-blank line with a colon assigns one field; a line without
a colon is skipped. -/
def stepLine (acc : List SSEFrame × CurrentEvent) (line : List Char) :
    List SSEFrame × CurrentEvent :=
  if line = [] then
    match acc.2.data with
    | some d => (acc.1 ++ [{ data := d, event := acc.2.event, id := acc.2.id, retry := acc.2.retry }], {})
    | none => (acc.1, {})
  else
    match splitAtColon line with
    | none => acc
    | some (pre, after) => (acc.1, applyField acc.2 (trimChars pre) (trimChars after))

/-- `SSEParser.parse(chunk)`: append the chunk to the retained buffer, split on
newlines, withhold the final segment as the new buffer, fold the remaining
lines with a fresh `currentEvent` accumulator (the accumulator is local to the
call and is discarded when the call returns). Returns the new buffer and the
emitted frames. -/
def sseParse (buffer chunk : List Char) : List Char × List SSEFrame :=
  let lines := splitLines (buffer ++ chunk)
  let buf := (lines.getLast?).getD []
  let acc := lines.dropLast.foldl stepLine ([], {})
  (buf, acc.1)

/-- Feed a sequence of chunks one by one to a parser that starts with buffer
`buf`, concatenating the frames each call returns. -/
def parseChunksFrom (buf : List Char) : List (List Char) → List SSEFrame
  | [] => []
  | c :: cs =>
    let p := sseParse buf c
    p.2 ++ parseChunksFrom p.1 cs

/-- Feed a sequence of chunks to a fresh parser (`parseChunksFrom` with the
empty buffer), as `StreamProcessor` does over the life of one response. -/
def parseChunks (chunks : List (List Char)) : List SSEFrame :=
  parseChunksFrom [] chunks

/-! ## Stream processor (class StreamProcessor) -/

/-- The frame filter inside `StreamProcessor.processStream`: pass frames
through until one whose `data` is the literal sentinel `[DONE]`, which
terminates the sequence immediately. Returns the passed frames and whether the
sentinel was seen. -/
def takeUntilDone : List SSEFrame → List SSEFrame × Bool
  | [] => ([], false)
  | f :: fs =>
    if f.data = "[DONE]".toList then ([], true)
    else
      let r := takeUntilDone fs
      (f :: r.1, r.2)

/-- The read loop of `StreamProcessor.processStream`: read a chunk, feed it to
the parser, yield each resulting frame, stopping at the `[DONE]` sentinel.
The loop body contains no check of the abort controller; the controller is
only stored by `setAbortController` and signalled by `abort`. -/
def streamLoop (buf : List Char) : List (List Char) → List SSEFrame
  | [] => []
  | c :: cs =>
    let p := sseParse buf c
    let r := takeUntilDone p.2
    if r.2 then r.1 else r.1 ++ streamLoop p.1 cs

/-- `StreamProcessor.processStream` viewed with the state of the shared
cancellation token as an explicit input: the frames yielded for a sequence of
received byte chunks. The `aborted` argument is the token state; the source
loop never consults it, so it does not occur in the body. -/
def processStreamEvents (aborted : Bool) (chunks : List (List Char)) : List SSEFrame :=
  streamLoop [] chunks

/-! ## Chat chunk data model (types/chat) -/

/-- `function: {name?, arguments?}` inside a streamed tool-call delta entry. -/
structure ToolCallFunctionDelta where
  name : Option String := none
  arguments : Option String := none
deriving DecidableEq, Repr

/-- One entry of `delta.tool_calls`: `{index?, id?, function?}`. -/
structure ToolCallDelta where
  index : Option Nat := none
  id : Option String := none
  function : Option ToolCallFunctionDelta := none
deriving DecidableEq, Repr

/-- The accumulated `function: {name, arguments}` of a tool-call snapshot. -/
structure ToolCallFunction where
  name : String := ""
  arguments : String := ""
deriving DecidableEq, Repr

/-- A `ChatCompletionMessageToolCall` snapshot entry: `{id, type: "function",
function}`. The constant `type` field is omitted. -/
structure ChatToolCall where
  id : String := ""
  function : ToolCallFunction := {}
deriving DecidableEq, Repr

/-- `delta: {content?, tool_calls?}` of a chat chunk choice (the `role` field
is not read by the runner and is omitted). -/
structure ChatDelta where
  content : Option String := none
  tool_calls : Option (List ToolCallDelta) := none
deriving DecidableEq, Repr

/-- One element of `choices`: `{delta?, finish_reason}`. `finish_reason := none`
models both JSON `null` and an absent field. -/
structure ChatChoice where
  delta : Option ChatDelta := none
  finish_reason : Option String := none
deriving DecidableEq, Repr

/-- A decoded `ChatCompletionChunk` as the runner reads it. `choices := none`
models a decoded JSON payload whose `choices` is not a usable array (reading
`chunk.choices[0]` throws). -/
structure ChatChunk where
  choices : Option (List ChatChoice) := none
deriving DecidableEq, Repr

/-- A decoded completion `CompletionChunk` choice: `{text?, finish_reason}`. -/
structure CompChoice where
  text : Option String := none
  finish_reason : Option String := none
deriving DecidableEq, Repr

/-- A decoded completion chunk. -/
structure CompChunk where
  choices : Option (List CompChoice) := none
deriving DecidableEq, Repr

/-- Truthiness of an optional string field in JavaScript: present and
non-empty. `some ""` and `none` are both falsy. -/
def truthy : Option String → Bool
  | none => false
  | some s => decide (s ≠ "")

/-- JavaScript string concatenation of a list of strings, in order. -/
def concatList (l : List String) : String :=
  l.foldr (fun a b => a ++ b) ""

/-! ## Runner events -/

/-- The observable events a streaming runner emits, in emission order. Chat
events carry their payloads; `compChunkEv`, `textDelta` and `textDone` are the
completion-variant counterparts. -/
inductive REvent where
  | chunkEv (c : ChatChunk)
  | contentDelta (delta snapshot : String)
  | contentDone (content : String)
  | toolDelta (index : Nat) (toolCall : ToolCallDelta) (snapshot : ChatToolCall)
  | toolDone (index : Nat) (toolCall : ChatToolCall)
  | compChunkEv (c : CompChunk)
  | textDelta (delta snapshot : String)
  | textDone (text : String)
  | errorEv
  | endEv
  | abortEv
deriving DecidableEq, Repr

def isContentDone : REvent → Bool
  | .contentDone _ => true
  | _ => false

def isToolDone : REvent → Bool
  | .toolDone _ _ => true
  | _ => false

def isEndEv : REvent → Bool
  | .endEv => true
  | _ => false

def isAbortEv : REvent → Bool
  | .abortEv => true
  | _ => false

def isChunkEv : REvent → Bool
  | .chunkEv _ => true
  | _ => false

def isContentDelta : REvent → Bool
  | .contentDelta _ _ => true
  | _ => false

/-! ## Tool call snapshot (Record<number, ChatCompletionMessageToolCall>) -/

/-- The tool-call snapshot: a JavaScript object with integer keys, modelled as
an association list kept in ascending key order with no duplicate keys
(JavaScript objects enumerate integer-like keys in ascending numeric order
regardless of insertion order). -/
abbrev ToolSnap := List (Nat × ChatToolCall)

/-- Read `this.toolCallsSnapshot[i]`. -/
def snapGet (s : ToolSnap) (i : Nat) : Option ChatToolCall :=
  (s.find? (fun p => p.1 == i)).map (fun p => p.2)

/-- Write `this.toolCallsSnapshot[i] = tc`, keeping ascending key order. -/
def snapSet : ToolSnap → Nat → ChatToolCall → ToolSnap
  | [], i, tc => [(i, tc)]
  | (j, u) :: rest, i, tc =>
    if i < j then (i, tc) :: (j, u) :: rest
    else if i = j then (i, tc) :: rest
    else (j, u) :: snapSet rest i tc

/-! ## Chat streaming runner (class ChatCompletionStreamingRunner) -/

/-- The mutable fields of `ChatCompletionStreamingRunner` that the frame loop
touches. -/
structure RState where
  contentSnapshot : String := ""
  isComplete : Bool := false
  finalContent : Option String := none
  toolCallsSnapshot : ToolSnap := []
  finalToolCalls : Option (List ChatToolCall) := none
deriving DecidableEq, Repr

/-- One incoming frame as the runner sees it after `JSON.parse(event.data)`:
either the parse threw (malformed JSON) or it produced a chunk. -/
inductive RFrame where
  | badJSON
  | ok (c : ChatChunk)
deriving DecidableEq, Repr

/-- One iteration of the body of `handleToolCallsDelta` for a single delta
entry: skip entries without an index; initialize the snapshot at the index if
absent (`id: delta.id || ""`); overwrite `id` and `function.name` when the
delta carries truthy values; append truthy `function.arguments`; emit one
`tool_calls.function.arguments.delta` event carrying the raw delta and a copy
of the updated snapshot. -/
def applyToolCallDelta (snap : ToolSnap) (d : ToolCallDelta) : ToolSnap × List REvent :=
  match d.index with
  | none => (snap, [])
  | some i =>
    let base : ChatToolCall :=
      match snapGet snap i with
      | some tc => tc
      | none => { id := d.id.getD "", function := { name := "", arguments := "" } }
    let afterId := if truthy d.id then { base with id := d.id.getD "" } else base
    let upd : ChatToolCall :=
      match d.function with
      | none => afterId
      | some f =>
        let n1 := if truthy f.name then { afterId.function with name := f.name.getD "" }
                  else afterId.function
        let n2 := if truthy f.arguments then { n1 with arguments := n1.arguments ++ f.arguments.getD "" }
                  else n1
        { afterId with function := n2 }
    (snapSet snap i upd, [REvent.toolDelta i d upd])

/-- `handleToolCallsDelta(toolCallDeltas)`: fold the entries left to right. -/
def handleToolCallsDelta (snap : ToolSnap) : List ToolCallDelta → ToolSnap × List REvent
  | [] => (snap, [])
  | d :: ds =>
    let p := applyToolCallDelta snap d
    let q := handleToolCallsDelta p.1 ds
    (q.1, p.2 ++ q.2)

/-- The `if (delta?.content)` block: append truthy content to the content
snapshot and emit `content.delta` with the new snapshot. -/
def contentStep (s : RState) (delta : Option ChatDelta) : RState × List REvent :=
  match delta with
  | none => (s, [])
  | some d =>
    match d.content with
    | none => (s, [])
    | some c =>
      if c ≠ "" then
        ({ s with contentSnapshot := s.contentSnapshot ++ c },
         [REvent.contentDelta c (s.contentSnapshot ++ c)])
      else (s, [])

/-- The `if (delta?.tool_calls)` block (an empty array is truthy in
JavaScript, so presence alone triggers the fold). -/
def toolStep (s : RState) (delta : Option ChatDelta) : RState × List REvent :=
  match delta.bind (fun d => d.tool_calls) with
  | none => (s, [])
  | some ds =>
    let p := handleToolCallsDelta s.toolCallsSnapshot ds
    ({ s with toolCallsSnapshot := p.1 }, p.2)

/-- The `for (let i = 0; i < Object.keys(snapshot).length; i++)` emission loop
at finalization: one `tool_calls.function.arguments.done` event per populated
index below the count of populated keys. -/
def toolDoneEvents (snap : ToolSnap) : List REvent :=
  (List.range snap.length).filterMap
    (fun i => (snapGet snap i).map (fun tc => REvent.toolDone i tc))

/-- The `if (finishReason)` block: freeze `_finalContent` and
`_finalToolCalls` (`Object.values`, ascending key order), set `isComplete`,
emit `content.done` when the content snapshot is non-empty, then the tool-call
done events. -/
def finishStep (s : RState) (fin : Option String) : RState × List REvent :=
  if truthy fin then
    ({ s with finalContent := some s.contentSnapshot,
              finalToolCalls := some (s.toolCallsSnapshot.map (fun p => p.2)),
              isComplete := true },
     (if s.contentSnapshot ≠ "" then [REvent.contentDone s.contentSnapshot] else [])
       ++ toolDoneEvents s.toolCallsSnapshot)
  else (s, [])

/-- Processing of one frame inside the `for await` loop of `processStream`
(the per-frame `try`): a JSON parse failure emits `error` and recovers; a
decoded chunk emits `chunk`, then (when `chunk.choices[0]` is readable) the
content, tool-call and finish steps in order; a chunk without a usable
`choices` array throws after the `chunk` emit and the catch emits `error`. -/
def processFrame (s : RState) : RFrame → RState × List REvent
  | .badJSON => (s, [REvent.errorEv])
  | .ok c =>
    match c.choices with
    | none => (s, [REvent.chunkEv c, REvent.errorEv])
    | some chs =>
      let delta := chs.head?.bind (fun ch => ch.delta)
      let p1 := contentStep s delta
      let p2 := toolStep p1.1 delta
      let p3 := finishStep p2.1 (chs.head?.bind (fun ch => ch.finish_reason))
      (p3.1, REvent.chunkEv c :: (p1.2 ++ p2.2 ++ p3.2))

/-- The frame loop: process each frame in arrival order, concatenating the
emitted events. -/
def runFrames (s : RState) : List RFrame → RState × List REvent
  | [] => (s, [])
  | f :: fs =>
    let p := processFrame s f
    let q := runFrames p.1 fs
    (q.1, p.2 ++ q.2)

/-- Lines 75-81 of the runner: after the loop, if no finish signal was seen,
freeze the content snapshot (note `_finalToolCalls` is not set here), mark
complete and emit `content.done` unconditionally; then emit `end`. -/
def epilogue (s : RState) : RState × List REvent :=
  if s.isComplete then (s, [REvent.endEv])
  else ({ s with finalContent := some s.contentSnapshot, isComplete := true },
        [REvent.contentDone s.contentSnapshot, REvent.endEv])

/-- A full, uninterrupted run of `processStream` over a frame sequence: the
loop followed by the end-of-sequence epilogue. -/
def runStream (fs : List RFrame) : RState × List REvent :=
  let p := runFrames {} fs
  let q := epilogue p.1
  (q.1, p.2 ++ q.2)

/-- `finalContent()` after `done()` has resolved: `this._finalContent || ""`. -/
def runnerFinalContent (s : RState) : String :=
  s.finalContent.getD ""

/-- A frame carrying `choices[0].delta.content = c` and the given
`finish_reason`. -/
def contentFrame (c : String) (fin : Option String) : RFrame :=
  .ok { choices := some [{ delta := some { content := some c }, finish_reason := fin }] }

/-- A frame carrying only `choices[0].finish_reason = r`. -/
def finishFrame (r : String) : RFrame :=
  .ok { choices := some [{ delta := none, finish_reason := some r }] }

/-- A frame carrying a single `delta.tool_calls` entry. -/
def toolFrame (d : ToolCallDelta) : RFrame :=
  .ok { choices := some [{ delta := some { tool_calls := some [d] }, finish_reason := none }] }

/-- A sequence of content frames, the last of which also carries the finish
reason `r`. -/
def mkContentFrames : List String → String → List RFrame
  | [], _ => []
  | [c], r => [contentFrame c (some r)]
  | c :: c2 :: cs, r => contentFrame c none :: mkContentFrames (c2 :: cs) r

/-- Does the frame carry a truthy `choices[0].finish_reason`? -/
def hasFinish : RFrame → Bool
  | .badJSON => false
  | .ok c =>
    match c.choices with
    | none => false
    | some chs => truthy (chs.head?.bind (fun ch => ch.finish_reason))

/-- Does processing the frame emit an `error` event (malformed JSON, or a
decoded payload without a usable `choices` array)? -/
def emitsError : RFrame → Bool
  | .badJSON => true
  | .ok c =>
    match c.choices with
    | none => true
    | some _ => false

/-! ## Completion streaming runner (class CompletionStreamingRunner) -/

/-- The mutable fields of `CompletionStreamingRunner`. -/
structure CState where
  textSnapshot : String := ""
  isComplete : Bool := false
  finalText : Option String := none
deriving DecidableEq, Repr

/-- One incoming frame of the completion runner after `JSON.parse`. -/
inductive CFrame where
  | badJSON
  | ok (c : CompChunk)
deriving DecidableEq, Repr

/-- The `if (choice?.text)` block of the completion runner: append truthy text
to the snapshot and emit `text.delta`. -/
def textStep (s : CState) (txt : Option String) : CState × List REvent :=
  match txt with
  | none => (s, [])
  | some t =>
    if t ≠ "" then
      ({ s with textSnapshot := s.textSnapshot ++ t },
       [REvent.textDelta t (s.textSnapshot ++ t)])
    else (s, [])

/-- The `if (finishReason)` block of the completion runner: freeze
`_finalText`, set `isComplete` and emit `text.done` unconditionally. -/
def compFinishStep (s : CState) (fin : Option String) : CState × List REvent :=
  if truthy fin then
    ({ s with finalText := some s.textSnapshot, isComplete := true },
     [REvent.textDone s.textSnapshot])
  else (s, [])

/-- Processing of one frame in the completion runner loop: `chunk` event, then
the text step, then the finish step. A chunk without a usable `choices` array
throws after the `chunk` emit and the catch emits `error`. -/
def processCompFrame (s : CState) : CFrame → CState × List REvent
  | .badJSON => (s, [REvent.errorEv])
  | .ok c =>
    match c.choices with
    | none => (s, [REvent.compChunkEv c, REvent.errorEv])
    | some chs =>
      let p1 := textStep s (chs.head?.bind (fun ch => ch.text))
      let p2 := compFinishStep p1.1 (chs.head?.bind (fun ch => ch.finish_reason))
      (p2.1, REvent.compChunkEv c :: (p1.2 ++ p2.2))

/-- The completion-runner frame loop. -/
def runCompFrames (s : CState) : List CFrame → CState × List REvent
  | [] => (s, [])
  | f :: fs =>
    let p := processCompFrame s f
    let q := runCompFrames p.1 fs
    (q.1, p.2 ++ q.2)

/-- Lines 56-62 of the completion runner: finalize if no finish signal was
seen, then emit `end`. -/
def compEpilogue (s : CState) : CState × List REvent :=
  if s.isComplete then (s, [REvent.endEv])
  else ({ s with finalText := some s.textSnapshot, isComplete := true },
        [REvent.textDone s.textSnapshot, REvent.endEv])

/-- A full, uninterrupted run of the completion runner over a frame sequence. -/
def runCompStream (fs : List CFrame) : CState × List REvent :=
  let p := runCompFrames {} fs
  let q := compEpilogue p.1
  (q.1, p.2 ++ q.2)

/-- Does processing the completion frame emit an `error` event? -/
def compEmitsError : CFrame → Bool
  | .badJSON => true
  | .ok c =>
    match c.choices with
    | none => true
    | some _ => false

/-! ## The done() promise (identical in both runner variants) -/

/-- How a call to `done()` settles. `pending` means the promise never
settles because no further `end`, `error` or `abort` event is ever emitted. -/
inductive DoneResult where
  | resolved
  | rejectedError
  | rejectedAbort
  | pending
deriving DecidableEq, Repr

/-- The events `done()` subscribes to with `once`: `end`, `error`, `abort`. -/
def isSettling : REvent → Bool
  | .endEv => true
  | .errorEv => true
  | .abortEv => true
  | _ => false

/-- `done()` called when the runner has `isComplete = complete` and the events
still to be emitted after the call are `future`: resolve immediately when
already complete; otherwise the first subsequent `end`, `error` or `abort`
event settles the promise (the `once` handlers clean each other up), and if
no such event ever arrives the promise stays pending. -/
def doneResult (complete : Bool) (future : List REvent) : DoneResult :=
  if complete then .resolved
  else
    match future.find? isSettling with
    | some .endEv => .resolved
    | some .errorEv => .rejectedError
    | some .abortEv => .rejectedAbort
    | _ => .pending

/-- The chat-runner state after the first `k` frames of `fs` were processed:
what `done()` reads as `this.isComplete` when called at that point. -/
def stateAt (fs : List RFrame) (k : Nat) : RState :=
  (runFrames {} (fs.take k)).1

/-- The events the chat runner still emits after the first `k` frames of an
uninterrupted run of `fs`: the remaining frames, then the epilogue. -/
def chatFuture (fs : List RFrame) (k : Nat) : List REvent :=
  let p := runFrames (stateAt fs k) (fs.drop k)
  p.2 ++ (epilogue p.1).2

/-- The completion-runner state after the first `k` frames. -/
def compStateAt (fs : List CFrame) (k : Nat) : CState :=
  (runCompFrames {} (fs.take k)).1

/-- The events the completion runner still emits after the first `k` frames
of an uninterrupted run. -/
def compFuture (fs : List CFrame) (k : Nat) : List REvent :=
  let p := runCompFrames (compStateAt fs k) (fs.drop k)
  p.2 ++ (compEpilogue p.1).2

/-! ## Abort scenarios (abort() lines 91-94, loop check lines 25-28) -/

/-- `abort()` called at a frame boundary, after the first `k` frames were
processed and before frame `k` is read: `abort()` itself emits `abort`
synchronously; when the next frame arrives, the per-frame check
`abortController.signal.aborted` emits `abort` again and returns, skipping the
epilogue. If no frame remains (`k ≥ fs.length`) the run has already finished
(epilogue included) by the time `abort()` is called, which then only emits its
own `abort` event. -/
def runAbortAtBoundary (fs : List RFrame) (k : Nat) : RState × List REvent :=
  if k < fs.length then
    let p := runFrames {} (fs.take k)
    (p.1, p.2 ++ [REvent.abortEv, REvent.abortEv])
  else
    let p := runStream fs
    (p.1, p.2 ++ [REvent.abortEv])

/-- `abort()` called synchronously from inside the consumer's `chunk` handler
while frame `k` is being processed: the `chunk` event fires, the handler runs
`abort()` (emitting `abort`), then the rest of the processing of frame `k`
still runs and emits its events (the per-frame check already passed for this
frame). At the next frame the check emits `abort` and returns; if frame `k`
was the last, the loop exits normally and the unguarded epilogue still runs. -/
def runAbortDuringChunk (fs : List RFrame) (k : Nat) : List REvent :=
  match fs[k]? with
  | none => (runStream fs).2
  | some f =>
    let p := runFrames {} (fs.take k)
    let q := processFrame p.1 f
    let frameEvs :=
      match q.2 with
      | REvent.chunkEv c :: rest => REvent.chunkEv c :: REvent.abortEv :: rest
      | evs => evs
    p.2 ++ frameEvs ++ (if k + 1 < fs.length then [REvent.abortEv] else (epilogue q.1).2)

/-- Drop everything up to and including the first element satisfying `p`. -/
def dropThroughFirst (p : REvent → Bool) : List REvent → List REvent
  | [] => []
  | e :: rest => if p e then rest else dropThroughFirst p rest

/-! ## Pull-based async iterator (Symbol.asyncIterator) -/

/-- The captured state of the object the async iterator closes over:
the buffered `chunks` array, the read cursor `chunkIndex`, and the
`isComplete` and `error` flags set by the event handlers registered when the
iterator is created. -/
structure ItState where
  chunks : List ChatChunk := []
  chunkIndex : Nat := 0
  isComplete : Bool := false
  hasError : Bool := false
deriving DecidableEq, Repr

/-- The handlers the iterator registers: `chunk` pushes, `end` completes,
`error` and `abort` record an error and complete. Other runner events do not
touch the iterator state. -/
def stepIt (s : ItState) : REvent → ItState
  | .chunkEv c => { s with chunks := s.chunks ++ [c] }
  | .endEv => { s with isComplete := true }
  | .errorEv => { s with hasError := true, isComplete := true }
  | .abortEv => { s with hasError := true, isComplete := true }
  | _ => s

/-- The iterator state after a sequence of runner events. -/
def itFold (evs : List REvent) : ItState :=
  evs.foldl stepIt {}

/-- The possible outcomes of one `next()` call. -/
inductive NextResult where
  | blocked
  | thrown
  | yielded (c : ChatChunk)
  | finished
deriving DecidableEq, Repr

/-- `next()`: poll until a chunk is buffered or the stream is complete
(`blocked` models waiting forever); then throw the recorded error if any,
else yield the next buffered chunk, else report exhaustion. -/
def nextIt (s : ItState) : NextResult × ItState :=
  if s.chunks.length ≤ s.chunkIndex ∧ s.isComplete = false then (.blocked, s)
  else if s.hasError then (.thrown, s)
  else if h : s.chunkIndex < s.chunks.length then
    (.yielded (s.chunks.get ⟨s.chunkIndex, h⟩), { s with chunkIndex := s.chunkIndex + 1 })
  else (.finished, s)

/-! ## Event emitter (class EventEmitter, emit) -/

/-- `handlers.delete` applied for each id in `rem`: remove those ids from the
registration list. -/
def applyRemovals (l rem : List Nat) : List Nat :=
  l.filter (fun x => !(rem.contains x))

/-- The `for (const handler of handlers)` loop of `emit`, iterating the live
`Set` (not a snapshot): the next handler invoked is the first registered one
not yet visited; invoking handler `h` runs its `off` calls `act h` against the
live set. Removal-only handler behaviour is modelled; `fuel` bounds the
recursion and is always sufficient because the set never grows. Returns the
invocation order. -/
def emitLoop (act : Nat → List Nat) : Nat → List Nat → List Nat → List Nat
  | 0, _, _ => []
  | fuel + 1, seen, l =>
    match l.find? (fun x => !(seen.contains x)) with
    | none => []
    | some h => h :: emitLoop act fuel (seen ++ [h]) (applyRemovals l (act h))

/-- `emit(event, payload)` with handler set `l` (in registration order,
duplicate-free as a JavaScript `Set`) where invoked handler `h` removes the
handlers `act h`: the list of handlers invoked, in order. -/
def emitRun (act : Nat → List Nat) (l : List Nat) : List Nat :=
  emitLoop act l.length [] l

/-- A concrete handler behaviour: handler 1 removes handler 2, all other
handlers remove nothing. -/
def removesTwo : Nat → List Nat :=
  fun i => if i = 1 then [2] else []

/-! ## General lemmas about the runner fold -/

theorem runStream_eq (fs : List RFrame) :
    runStream fs =
      ((epilogue (runFrames {} fs).1).1, (runFrames {} fs).2 ++ (epilogue (runFrames {} fs).1).2) :=
  rfl

theorem runFrames_append (s : RState) (a b : List RFrame) :
    runFrames s (a ++ b) =
      ((runFrames (runFrames s a).1 b).1, (runFrames s a).2 ++ (runFrames (runFrames s a).1 b).2) := by
  induction a generalizing s with
  | nil => simp [runFrames]
  | cons f fs ih => simp [runFrames, ih]

theorem runFrames_mkContent (cs : List String) (r : String) (s : RState) (hcs : cs ≠ [])
    (hr : r ≠ "") :
    (runFrames s (mkContentFrames cs r)).1 =
      { s with contentSnapshot := s.contentSnapshot ++ concatList cs,
               finalContent := some (s.contentSnapshot ++ concatList cs),
               finalToolCalls := some (s.toolCallsSnapshot.map (fun p => p.2)),
               isComplete := true } := by
  induction cs generalizing s with
  | nil => exact absurd rfl hcs
  | cons c cs ih =>
    cases cs with
    | nil =>
      by_cases hc : c = "" <;>
        simp [mkContentFrames, runFrames, processFrame, contentFrame, contentStep, toolStep,
              finishStep, truthy, hr, hc, concatList, String.append_empty]
    | cons c2 cs2 =>
      by_cases hc : c = "" <;>
        simp [mkContentFrames, runFrames, processFrame, contentFrame, contentStep, toolStep,
              finishStep, truthy, hc, ih _ (by simp), concatList, String.append_assoc]

def isToolDelta : REvent → Bool
  | .toolDelta _ _ _ => true
  | _ => false

theorem applyToolCallDelta_events (snap : ToolSnap) (d : ToolCallDelta) :
    ∀ e ∈ (applyToolCallDelta snap d).2, isToolDelta e = true := by
  cases hi : d.index <;> simp [applyToolCallDelta, hi, isToolDelta]

theorem handleToolCallsDelta_events (ds : List ToolCallDelta) (snap : ToolSnap) :
    ∀ e ∈ (handleToolCallsDelta snap ds).2, isToolDelta e = true := by
  induction ds generalizing snap with
  | nil => simp [handleToolCallsDelta]
  | cons d ds ih =>
    intro e he
    simp only [handleToolCallsDelta, List.mem_append] at he
    rcases he with he | he
    · exact applyToolCallDelta_events snap d e he
    · exact ih _ e he

theorem contentStep_spec (s : RState) (d : Option ChatDelta) :
    (∃ x, (contentStep s d).1 = { s with contentSnapshot := x }) ∧
      ∀ e ∈ (contentStep s d).2, isContentDelta e = true := by
  match d with
  | none => exact ⟨⟨s.contentSnapshot, rfl⟩, by simp [contentStep]⟩
  | some dd =>
    match hc : dd.content with
    | none => exact ⟨⟨s.contentSnapshot, by simp [contentStep, hc]⟩, by simp [contentStep, hc]⟩
    | some c =>
      by_cases hce : c = "" <;>
        exact ⟨⟨if c = "" then s.contentSnapshot else s.contentSnapshot ++ c,
                by simp [contentStep, hc, hce]⟩,
               by simp [contentStep, hc, hce, isContentDelta]⟩

theorem toolStep_spec (s : RState) (d : Option ChatDelta) :
    (∃ x, (toolStep s d).1 = { s with toolCallsSnapshot := x }) ∧
      ∀ e ∈ (toolStep s d).2, isToolDelta e = true := by
  match hd : d.bind (fun dd => dd.tool_calls) with
  | none => exact ⟨⟨s.toolCallsSnapshot, by simp [toolStep, hd]⟩, by simp [toolStep, hd]⟩
  | some ds =>
    refine ⟨⟨(handleToolCallsDelta s.toolCallsSnapshot ds).1, by simp [toolStep, hd]⟩, ?_⟩
    intro e he
    simp only [toolStep, hd] at he
    exact handleToolCallsDelta_events ds s.toolCallsSnapshot e he

theorem mem_toolDoneEvents (snap : ToolSnap) :
    ∀ e ∈ toolDoneEvents snap, isToolDone e = true := by
  intro e he
  simp only [toolDoneEvents, List.mem_filterMap, Option.map_eq_some'] at he
  obtain ⟨i, _, tc, _, rfl⟩ := he
  rfl

/-- The master event characterization of one frame: the loop body never emits
`end` or `abort`; an error-free frame emits no settling event; a frame without
a finish signal emits neither `content.done` nor a tool-call done event. -/
theorem processFrame_events (s : RState) (f : RFrame) :
    ∀ e ∈ (processFrame s f).2,
      isEndEv e = false ∧ isAbortEv e = false ∧
      (emitsError f = false → isSettling e = false) ∧
      (hasFinish f = false → isContentDone e = false ∧ isToolDone e = false) := by
  intro e he
  match f with
  | .badJSON =>
    simp [processFrame] at he
    subst he
    simp [isEndEv, isAbortEv, emitsError, isContentDone, isToolDone]
  | .ok c =>
    match hch : c.choices with
    | none =>
      simp [processFrame, hch] at he
      rcases he with rfl | rfl <;>
        simp [isEndEv, isAbortEv, emitsError, hch, isContentDone, isToolDone, isSettling]
    | some chs =>
      have hErr : emitsError (RFrame.ok c) = false := by simp [emitsError, hch]
      have hFin : hasFinish (RFrame.ok c) = truthy (chs.head?.bind (fun ch => ch.finish_reason)) := by
        simp [hasFinish, hch]
      rw [hErr, hFin]
      simp only [processFrame, hch, List.mem_cons, List.mem_append] at he
      rcases he with rfl | (he | he) | he
      · simp [isEndEv, isAbortEv, isSettling, isContentDone, isToolDone]
      · have h2 := (contentStep_spec s (chs.head?.bind (fun ch => ch.delta))).2 e he
        cases e <;>
          simp_all [isContentDelta, isEndEv, isAbortEv, isSettling, isContentDone, isToolDone]
      · have h2 := (toolStep_spec (contentStep s (chs.head?.bind (fun ch => ch.delta))).1
          (chs.head?.bind (fun ch => ch.delta))).2 e he
        cases e <;>
          simp_all [isToolDelta, isEndEv, isAbortEv, isSettling, isContentDone, isToolDone]
      · by_cases ht : truthy (chs.head?.bind (fun ch => ch.finish_reason)) = true
        · rw [finishStep, if_pos ht] at he
          rcases List.mem_append.mp he with he | he
          · split at he
            · simp at he
              subst he
              simp [isEndEv, isAbortEv, isSettling, isContentDone, ht]
            · simp at he
          · have h2 := mem_toolDoneEvents _ e he
            cases e <;>
              simp_all [isToolDone, isEndEv, isAbortEv, isSettling, isContentDone, ht]
        · rw [finishStep, if_neg ht] at he
          simp at he

/-- A frame without a finish signal leaves `_finalContent`, `_finalToolCalls`
and `isComplete` untouched (it only grows the snapshots). -/
theorem processFrame_noFinish_state (s : RState) (f : RFrame) (hf : hasFinish f = false) :
    (processFrame s f).1.finalContent = s.finalContent ∧
    (processFrame s f).1.finalToolCalls = s.finalToolCalls ∧
    (processFrame s f).1.isComplete = s.isComplete := by
  match f with
  | .badJSON => simp [processFrame]
  | .ok c =>
    match hch : c.choices with
    | none => simp [processFrame, hch]
    | some chs =>
      have ht : truthy (chs.head?.bind (fun ch => ch.finish_reason)) = false := by
        simpa [hasFinish, hch] using hf
      obtain ⟨⟨x, hx⟩, -⟩ := contentStep_spec s (chs.head?.bind (fun ch => ch.delta))
      obtain ⟨⟨y, hy⟩, -⟩ := toolStep_spec (contentStep s (chs.head?.bind (fun ch => ch.delta))).1
        (chs.head?.bind (fun ch => ch.delta))
      rw [hx] at hy
      simp [processFrame, hch, finishStep, ht, hx, hy]

/-- A frame with a truthy finish signal always sets `isComplete`. -/
theorem processFrame_finish_complete (s : RState) (f : RFrame) (hf : hasFinish f = true) :
    (processFrame s f).1.isComplete = true := by
  match f with
  | .badJSON => simp [hasFinish] at hf
  | .ok c =>
    match hch : c.choices with
    | none => simp [hasFinish, hch] at hf
    | some chs =>
      have ht : truthy (chs.head?.bind (fun ch => ch.finish_reason)) = true := by
        simpa [hasFinish, hch] using hf
      simp [processFrame, hch, finishStep, ht]

/-- Lifting of `processFrame_noFinish_state` and the done-event part of
`processFrame_events` to a whole run of finish-free frames. -/
theorem runFrames_noFinish (fs : List RFrame) (s : RState)
    (hfs : ∀ f ∈ fs, hasFinish f = false) :
    (runFrames s fs).1.finalContent = s.finalContent ∧
    (runFrames s fs).1.finalToolCalls = s.finalToolCalls ∧
    (runFrames s fs).1.isComplete = s.isComplete ∧
    ∀ e ∈ (runFrames s fs).2, isContentDone e = false ∧ isToolDone e = false := by
  induction fs generalizing s with
  | nil => simp [runFrames]
  | cons f fs ih =>
    have hf := hfs f (by simp)
    have hrest : ∀ g ∈ fs, hasFinish g = false := fun g hg => hfs g (by simp [hg])
    obtain ⟨h1, h2, h3⟩ := processFrame_noFinish_state s f hf
    obtain ⟨i1, i2, i3, i4⟩ := ih (processFrame s f).1 hrest
    refine ⟨by simp [runFrames, i1, h1], by simp [runFrames, i2, h2],
      by simp [runFrames, i3, h3], ?_⟩
    intro e he
    simp only [runFrames, List.mem_append] at he
    rcases he with he | he
    · exact (processFrame_events s f e he).2.2.2 hf
    · exact i4 e he

/-- The loop body never emits `end`, over a whole run. -/
theorem runFrames_no_end (fs : List RFrame) (s : RState) :
    (runFrames s fs).2.countP isEndEv = 0 := by
  induction fs generalizing s with
  | nil => simp [runFrames]
  | cons f fs ih =>
    simp only [runFrames, List.countP_append]
    have h1 : (processFrame s f).2.countP isEndEv = 0 := by
      apply List.countP_eq_zero.mpr
      intro e he
      simp [(processFrame_events s f e he).1]
    simp [h1, ih]

/-- C1: for every sequence of frames whose `choices[0].delta.content`
fragments arrive in order and whose last frame carries a (truthy)
`finish_reason`, the chat runner freezes `_finalContent` at the finish signal
and `finalContent()` returns exactly the concatenation of all `delta.content`
values in arrival order. -/
theorem c1_final_content_is_concat (cs : List String) (r : String) (hcs : cs ≠ [])
    (hr : r ≠ "") :
    (runStream (mkContentFrames cs r)).1.finalContent = some (concatList cs) ∧
    runnerFinalContent (runStream (mkContentFrames cs r)).1 = concatList cs := by
  have h := runFrames_mkContent cs r {} hcs hr
  simp [runStream, epilogue, runnerFinalContent, h]

/-- Witness for C1 at a concrete input. -/
theorem c1_final_content_is_concat_witness :
    (["Hello", " world"] : List String) ≠ [] ∧ ("stop" : String) ≠ "" ∧
    ((runStream (mkContentFrames ["Hello", " world"] "stop")).1.finalContent
        = some (concatList ["Hello", " world"]) ∧
      runnerFinalContent (runStream (mkContentFrames ["Hello", " world"] "stop")).1
        = concatList ["Hello", " world"]) :=
  ⟨by decide, by decide, c1_final_content_is_concat ["Hello", " world"] "stop" (by decide) (by decide)⟩

/-- C3 counterexample: with frames `content "A" + finish` then
`content "B" + finish`, the finalization block runs again on the second finish
signal: `finalContent()` returns `"AB"`, not the snapshot `"A"` frozen at the
first finish signal, and `content.done` is emitted twice. -/
theorem c3_counterexample :
    (runStream [contentFrame "A" (some "stop"), contentFrame "B" (some "stop")]).1.finalContent
        = some "AB" ∧
    (runStream [contentFrame "A" (some "stop"), contentFrame "B" (some "stop")]).1.finalContent
        ≠ some "A" ∧
    (runStream [contentFrame "A" (some "stop"), contentFrame "B" (some "stop")]).2.countP
        isContentDone = 2 := by
  refine ⟨by decide, by decide, by decide⟩

/-- C3 (amended): once a finish signal has been observed, processing further
frames that do not carry another truthy `finish_reason` leaves `finalContent()`
and `finalToolCalls()` at the snapshot frozen at the finish signal, re-emits
neither `content.done` nor any tool-call done event, and `end` is emitted
exactly once at exhaustion. (A further frame that does carry a `finish_reason`
re-runs finalization, re-freezing the snapshots and re-emitting the done
events: the guard at exhaustion is the only `isComplete` check.) -/
theorem c3_finalization_guarded (pre : List RFrame) (c r : String) (post : List RFrame)
    (hr : r ≠ "") (hpost : ∀ f ∈ post, hasFinish f = false) :
    (runStream (pre ++ [contentFrame c (some r)] ++ post)).1.finalContent =
      (runFrames {} (pre ++ [contentFrame c (some r)])).1.finalContent ∧
    (runStream (pre ++ [contentFrame c (some r)] ++ post)).1.finalToolCalls =
      (runFrames {} (pre ++ [contentFrame c (some r)])).1.finalToolCalls ∧
    (∀ e ∈ (runFrames (runFrames {} (pre ++ [contentFrame c (some r)])).1 post).2,
        isContentDone e = false ∧ isToolDone e = false) ∧
    (runStream (pre ++ [contentFrame c (some r)] ++ post)).2.countP isEndEv = 1 := by
  have hfin : hasFinish (contentFrame c (some r)) = true := by
    simp [hasFinish, contentFrame, truthy, hr]
  have hmid : (runFrames {} (pre ++ [contentFrame c (some r)])).1.isComplete = true := by
    rw [runFrames_append]
    simp only [runFrames]
    exact processFrame_finish_complete _ _ hfin
  obtain ⟨ha, hb, hcc, hd⟩ :=
    runFrames_noFinish post (runFrames {} (pre ++ [contentFrame c (some r)])).1 hpost
  have hsplit := runFrames_append {} (pre ++ [contentFrame c (some r)]) post
  have hepi : epilogue (runFrames (runFrames {} (pre ++ [contentFrame c (some r)])).1 post).1 =
      ((runFrames (runFrames {} (pre ++ [contentFrame c (some r)])).1 post).1, [REvent.endEv]) := by
    simp [epilogue, hcc, hmid]
  refine ⟨?_, ?_, hd, ?_⟩
  · rw [runStream_eq, hsplit]
    simp [hepi, ha]
  · rw [runStream_eq, hsplit]
    simp [hepi, hb]
  · rw [runStream_eq, hsplit]
    simp [hepi, List.countP_append, runFrames_no_end, isEndEv]

/-- Witness for the amended C3 at a concrete input. -/
theorem c3_finalization_guarded_witness :
    ("stop" : String) ≠ "" ∧ (∀ f ∈ [contentFrame "B" none], hasFinish f = false) ∧
    ((runStream ([] ++ [contentFrame "A" (some "stop")] ++ [contentFrame "B" none])).1.finalContent =
        (runFrames {} ([] ++ [contentFrame "A" (some "stop")])).1.finalContent ∧
      (runStream ([] ++ [contentFrame "A" (some "stop")] ++ [contentFrame "B" none])).1.finalToolCalls =
        (runFrames {} ([] ++ [contentFrame "A" (some "stop")])).1.finalToolCalls ∧
      (∀ e ∈ (runFrames (runFrames {} ([] ++ [contentFrame "A" (some "stop")])).1
          [contentFrame "B" none]).2, isContentDone e = false ∧ isToolDone e = false) ∧
      (runStream ([] ++ [contentFrame "A" (some "stop")] ++ [contentFrame "B" none])).2.countP
          isEndEv = 1) :=
  ⟨by decide, by decide,
    c3_finalization_guarded [] "A" "stop" [contentFrame "B" none] (by decide) (by decide)⟩

/-! ## Tool snapshot lemmas and C9 -/

theorem snapGet_snapSet_self (s : ToolSnap) (i : Nat) (tc : ChatToolCall) :
    snapGet (snapSet s i tc) i = some tc := by
  induction s with
  | nil => simp [snapSet, snapGet, List.find?]
  | cons p rest ih =>
    obtain ⟨j, u⟩ := p
    rcases Nat.lt_trichotomy i j with h | h | h
    · simp [snapSet, h, snapGet, List.find?]
    · simp [snapSet, h, Nat.lt_irrefl, snapGet, List.find?]
    · have h1 : ¬ i < j := Nat.not_lt.mpr (Nat.le_of_lt h)
      have h2 : ¬ i = j := fun hij => Nat.lt_irrefl i (hij ▸ h)
      have h3 : (j == i) = false := by
        simp [Nat.ne_of_lt h]
      simp only [snapSet, if_neg h1, if_neg h2]
      simpa [snapGet, List.find?, h3] using ih

theorem snapSet_snapSet_self (s : ToolSnap) (i : Nat) (a b : ChatToolCall) :
    snapSet (snapSet s i a) i b = snapSet s i b := by
  induction s with
  | nil => simp [snapSet, Nat.lt_irrefl]
  | cons p rest ih =>
    obtain ⟨j, u⟩ := p
    rcases Nat.lt_trichotomy i j with h | h | h
    · simp [snapSet, h, Nat.lt_irrefl]
    · simp [snapSet, h, Nat.lt_irrefl]
    · have h1 : ¬ i < j := Nat.not_lt.mpr (Nat.le_of_lt h)
      have h2 : ¬ i = j := fun hij => Nat.lt_irrefl i (hij ▸ h)
      simp [snapSet, h1, h2, ih]

/-- Append `f` to the accumulated `function.arguments` of a snapshot entry. -/
def updArgs (tc : ChatToolCall) (f : String) : ChatToolCall :=
  { tc with function := { tc.function with arguments := tc.function.arguments ++ f } }

/-- The snapshot entry the fold starts from at index `i`: the existing entry,
or the initializer `{id: "", type: "function", function: {name: "", arguments: ""}}`
(the delta carries no `id` in a pure-arguments fragment). -/
def baseOf (snap : ToolSnap) (i : Nat) : ChatToolCall :=
  (snapGet snap i).getD { id := "", function := { name := "", arguments := "" } }

/-- A delta entry carrying only an arguments fragment at index `i`. -/
def argDelta (i : Nat) (frag : String) : ToolCallDelta :=
  { index := some i, function := some { arguments := some frag } }

theorem updArgs_updArgs (tc : ChatToolCall) (a b : String) :
    updArgs (updArgs tc a) b = updArgs tc (a ++ b) := by
  simp [updArgs, String.append_assoc]

theorem applyToolCallDelta_argDelta (snap : ToolSnap) (i : Nat) (frag : String) :
    (applyToolCallDelta snap (argDelta i frag)).1 =
      snapSet snap i (updArgs (baseOf snap i) frag) := by
  by_cases hf : frag = "" <;>
    cases hg : snapGet snap i <;>
      simp [applyToolCallDelta, argDelta, truthy, baseOf, hg, updArgs, hf, String.append_empty]

theorem handleToolCallsDelta_argDeltas (frags : List String) (snap : ToolSnap) (i : Nat)
    (h : frags ≠ []) :
    (handleToolCallsDelta snap (frags.map (argDelta i))).1 =
      snapSet snap i (updArgs (baseOf snap i) (concatList frags)) := by
  induction frags generalizing snap with
  | nil => exact absurd rfl h
  | cons f rest ih =>
    cases rest with
    | nil =>
      simp [handleToolCallsDelta, applyToolCallDelta_argDelta, concatList, String.append_empty]
    | cons f2 rest2 =>
      have hne : f2 :: rest2 ≠ [] := by simp
      calc (handleToolCallsDelta snap ((f :: f2 :: rest2).map (argDelta i))).1
          = (handleToolCallsDelta (applyToolCallDelta snap (argDelta i f)).1
              ((f2 :: rest2).map (argDelta i))).1 := by
            simp [handleToolCallsDelta]
        _ = snapSet snap i (updArgs (baseOf snap i) (concatList (f :: f2 :: rest2))) := by
            rw [ih _ hne, applyToolCallDelta_argDelta]
            rw [show baseOf (snapSet snap i (updArgs (baseOf snap i) f)) i
                  = updArgs (baseOf snap i) f from by
              simp [baseOf, snapGet_snapSet_self]]
            rw [snapSet_snapSet_self, updArgs_updArgs]
            simp [concatList]

/-- C9: for every tool-call index, every starting snapshot and every arguments
string, splitting the string into any non-empty sequence of sub-fragments and
delivering them as successive deltas at that index leaves the Tool Call
Snapshot — in particular the final `function.arguments` value — identical to
delivering the whole string in a single delta. -/
theorem c9_tool_args_fragmentation (snap : ToolSnap) (i : Nat) (w : String)
    (frags : List String) (hw : concatList frags = w) (h : frags ≠ []) :
    (handleToolCallsDelta snap (frags.map (argDelta i))).1 =
      (handleToolCallsDelta snap [argDelta i w]).1 := by
  subst hw
  rw [handleToolCallsDelta_argDeltas frags snap i h]
  have h2 := handleToolCallsDelta_argDeltas [concatList frags] snap i (by simp)
  simpa [concatList, String.append_empty] using h2.symm

/-- Witness for C9 at a concrete input. -/
theorem c9_tool_args_fragmentation_witness :
    concatList ["lat:", "12,lng:34"] = "lat:12,lng:34" ∧
    (["lat:", "12,lng:34"] : List String) ≠ [] ∧
    (handleToolCallsDelta [] (["lat:", "12,lng:34"].map (argDelta 0))).1 =
      (handleToolCallsDelta [] [argDelta 0 "lat:12,lng:34"]).1 :=
  ⟨by decide, by decide,
    c9_tool_args_fragmentation [] 0 "lat:12,lng:34" ["lat:", "12,lng:34"] (by decide) (by decide)⟩

/-! ## C8 -/

theorem snapGet_cons_self (j : Nat) (u : ChatToolCall) (rest : ToolSnap) :
    snapGet ((j, u) :: rest) j = some u := by
  simp [snapGet, List.find?]

theorem snapGet_cons_ne (j : Nat) (u : ChatToolCall) (rest : ToolSnap) (i : Nat) (h : i ≠ j) :
    snapGet ((j, u) :: rest) i = snapGet rest i := by
  have hb : (j == i) = false := beq_eq_false_iff_ne.mpr (fun hji => h hji.symm)
  simp [snapGet, List.find?, hb]

theorem toolDone_filterMap (snap : ToolSnap) (ks : List Nat)
    (hk : snap.map (fun p => p.1) = ks) (hnd : ks.Nodup) :
    ks.filterMap (fun i => (snapGet snap i).map (fun tc => REvent.toolDone i tc)) =
      snap.map (fun p => REvent.toolDone p.1 p.2) := by
  induction snap generalizing ks with
  | nil =>
    subst hk
    simp
  | cons p rest ih =>
    obtain ⟨j, u⟩ := p
    subst hk
    simp only [List.map_cons] at hnd ⊢
    rw [List.nodup_cons] at hnd
    obtain ⟨hj, hnd'⟩ := hnd
    have hstep : ∀ i ∈ rest.map (fun p => p.1),
        ((snapGet ((j, u) :: rest) i).map (fun tc => REvent.toolDone i tc)) =
          ((snapGet rest i).map (fun tc => REvent.toolDone i tc)) := by
      intro i hi
      have hij : i ≠ j := fun hij => hj (hij ▸ hi)
      rw [snapGet_cons_ne j u rest i hij]
    have hfa : ((snapGet ((j, u) :: rest) j).map (fun tc => REvent.toolDone j tc))
        = some (REvent.toolDone j u) := by
      rw [snapGet_cons_self]
      rfl
    have hhead : List.filterMap
        (fun i => Option.map (fun tc => REvent.toolDone i tc) (snapGet ((j, u) :: rest) i))
        (j :: rest.map (fun p => p.1)) =
          REvent.toolDone j u :: List.filterMap
            (fun i => Option.map (fun tc => REvent.toolDone i tc) (snapGet ((j, u) :: rest) i))
            (rest.map (fun p => p.1)) := by
      simp only [List.filterMap_cons, hfa]
    rw [hhead, List.filterMap_congr hstep, ih _ rfl hnd']

theorem toolDoneEvents_contiguous (snap : ToolSnap)
    (hk : snap.map (fun p => p.1) = List.range snap.length) :
    toolDoneEvents snap = snap.map (fun p => REvent.toolDone p.1 p.2) := by
  have h := toolDone_filterMap snap (List.range snap.length) hk (List.nodup_range _)
  have hlen : snap.length = (snap.map (fun p => p.1)).length := by simp
  simpa [toolDoneEvents] using h

/-- C8 counterexample: a stream populating only the non-contiguous index 2 and
then finishing emits no `tool_calls.function.arguments.done` event at all (the
emission loop only scans indices below the populated count), while
`finalToolCalls()` still returns the snapshot. -/
theorem c8_counterexample :
    ((runStream [toolFrame { index := some 2, id := some "call_1", function := some { name := some "f", arguments := some "x" } }, finishFrame "tool_calls"]).2.filter isToolDone) = [] ∧
    (runStream [toolFrame { index := some 2, id := some "call_1", function := some { name := some "f", arguments := some "x" } }, finishFrame "tool_calls"]).1.finalToolCalls
      = some [{ id := "call_1", function := { name := "f", arguments := "x" } }] := by
  refine ⟨by decide, by decide⟩

/-- C8 (amended): when the chat runner observes a truthy `finish_reason` and
the populated indices of the Tool Call Snapshot are exactly the contiguous
range 0..k-1, the finish step emits one `tool_calls.function.arguments.done`
event per populated index, in ascending index order, each carrying that index
and its final snapshot, and freezes `_finalToolCalls` as the snapshots in
ascending index order. (For a non-contiguous populated set, indices at or
above the populated count get no done event, as the counterexample shows.) -/
theorem c8_tool_done_contiguous (s : RState) (r : String) (hr : r ≠ "")
    (hk : s.toolCallsSnapshot.map (fun p => p.1) = List.range s.toolCallsSnapshot.length) :
    (processFrame s (finishFrame r)).2.filter isToolDone =
      s.toolCallsSnapshot.map (fun p => REvent.toolDone p.1 p.2) ∧
    (processFrame s (finishFrame r)).1.finalToolCalls =
      some (s.toolCallsSnapshot.map (fun p => p.2)) := by
  have ht : truthy (some r) = true := by simp [truthy, hr]
  have hTD : (toolDoneEvents s.toolCallsSnapshot).filter isToolDone =
      s.toolCallsSnapshot.map (fun p => REvent.toolDone p.1 p.2) := by
    rw [toolDoneEvents_contiguous s.toolCallsSnapshot hk]
    apply List.filter_eq_self.mpr
    intro e he
    obtain ⟨p, -, rfl⟩ := List.mem_map.mp he
    rfl
  have h1 : isToolDone (REvent.chunkEv { choices := some [{ delta := none, finish_reason := some r }] }) = false := rfl
  have h2 : isToolDone (REvent.contentDone s.contentSnapshot) = false := rfl
  constructor
  · by_cases hcs : s.contentSnapshot = "" <;>
      simp [processFrame, finishFrame, contentStep, toolStep, finishStep, ht, hcs,
        List.filter_append, List.filter_cons, h1, h2, hTD]
  · simp [processFrame, finishFrame, contentStep, toolStep, finishStep, ht]

/-- Witness for the amended C8 at a concrete input. -/
theorem c8_tool_done_contiguous_witness :
    ("tool_calls" : String) ≠ "" ∧
    ([(0, { id := "a", function := { name := "f", arguments := "x" } }),
      (1, { id := "b", function := { name := "g", arguments := "y" } })] : ToolSnap).map (fun p => p.1)
      = List.range 2 ∧
    ((processFrame { toolCallsSnapshot := [(0, { id := "a", function := { name := "f", arguments := "x" } }), (1, { id := "b", function := { name := "g", arguments := "y" } })] } (finishFrame "tool_calls")).2.filter isToolDone =
        ([(0, { id := "a", function := { name := "f", arguments := "x" } }), (1, { id := "b", function := { name := "g", arguments := "y" } })] : ToolSnap).map (fun p => REvent.toolDone p.1 p.2) ∧
      (processFrame { toolCallsSnapshot := [(0, { id := "a", function := { name := "f", arguments := "x" } }), (1, { id := "b", function := { name := "g", arguments := "y" } })] } (finishFrame "tool_calls")).1.finalToolCalls =
        some (([(0, { id := "a", function := { name := "f", arguments := "x" } }), (1, { id := "b", function := { name := "g", arguments := "y" } })] : ToolSnap).map (fun p => p.2))) :=
  ⟨by decide, by decide,
    c8_tool_done_contiguous { toolCallsSnapshot := [(0, { id := "a", function := { name := "f", arguments := "x" } }), (1, { id := "b", function := { name := "g", arguments := "y" } })] } "tool_calls" (by decide) (by decide)⟩

/-! ## C2 -/

theorem splitLines_no_newline (l : List Char) (h : '\n' ∉ l) : splitLines l = [l] := by
  induction l with
  | nil => rfl
  | cons c rest ih =>
    have hc : c ≠ '\n' := fun hc => h (by simp [hc])
    have hrest : '\n' ∉ rest := fun hm => h (by simp [hm])
    simp [splitLines, ih hrest, hc]

/-- C2 counterexample: the same well-formed SSE byte sequence `"data: X\n\n"`
parses to one frame when fed whole, but to no frame at all when split at the
line boundary between the data line and the blank terminator line — the
in-progress frame accumulator is local to each `parse` call and only the
trailing partial line survives in the buffer. -/
theorem c2_counterexample :
    "data: X\n".toList ++ "\n".toList = "data: X\n\n".toList ∧
    parseChunks ["data: X\n\n".toList] = [{ data := "X".toList }] ∧
    parseChunks ["data: X\n".toList, "\n".toList] = [] := by
  refine ⟨by decide, by decide, by decide⟩

/-- C2 (amended): boundary insensitivity holds exactly for chunk boundaries
that fall strictly inside a line: when the parser buffer and the first chunk
contain no newline, the first chunk may be merged into the following chunk
without changing the parsed frame sequence. (A boundary that completes one or
more lines of a still-unterminated frame discards the accumulated fields, as
the counterexample shows.) -/
theorem c2_boundary_inside_line (b c1 c2 : List Char) (rest : List (List Char))
    (hb : '\n' ∉ b) (h1 : '\n' ∉ c1) :
    parseChunksFrom b (c1 :: c2 :: rest) = parseChunksFrom b ((c1 ++ c2) :: rest) := by
  have hno : '\n' ∉ b ++ c1 := by
    intro hmem
    rcases List.mem_append.mp hmem with hm | hm
    · exact hb hm
    · exact h1 hm
  have hp : sseParse b c1 = (b ++ c1, []) := by
    simp [sseParse, splitLines_no_newline _ hno]
  have hq : sseParse (b ++ c1) c2 = sseParse b (c1 ++ c2) := by
    rw [sseParse, sseParse, List.append_assoc]
  simp [parseChunksFrom, hp, hq]

/-- Witness for the amended C2 at a concrete input. -/
theorem c2_boundary_inside_line_witness :
    ('\n' ∉ ([] : List Char)) ∧ ('\n' ∉ "data: ".toList) ∧
    parseChunksFrom [] ["data: ".toList, "X\n\n".toList] =
      parseChunksFrom [] [("data: ".toList ++ "X\n\n".toList)] :=
  ⟨by decide, by decide,
    c2_boundary_inside_line [] "data: ".toList "X\n\n".toList [] (by decide) (by decide)⟩

/-! ## C7 -/

theorem emit_find_skip (seen pre l : List Nat) (hpre : ∀ x ∈ pre, x ∈ seen) :
    (pre ++ l).find? (fun x => !(seen.contains x)) = l.find? (fun x => !(seen.contains x)) := by
  induction pre with
  | nil => rfl
  | cons p ps ih =>
    have hp : p ∈ seen := hpre p (by simp)
    have hrest : ∀ x ∈ ps, x ∈ seen := fun x hx => hpre x (by simp [hx])
    have hnone : List.find? (fun x => !(decide (x ∈ seen))) ps = none :=
      List.find?_eq_none.mpr (fun x hx => by simp [hrest x hx])
    simp [List.find?, hp, hnone]

theorem emitLoop_self_removal (rest : List Nat) :
    ∀ (pre seen : List Nat) (fuel : Nat) (act : Nat → List Nat),
      rest.length ≤ fuel →
      (∀ x ∈ pre, x ∈ seen) → (∀ x ∈ rest, x ∉ seen) → rest.Nodup →
      (∀ x ∈ rest, ∀ j ∈ act x, j = x) →
      emitLoop act fuel seen (pre ++ rest) = rest := by
  induction rest with
  | nil =>
    intro pre seen fuel act _ hpre _ _ _
    have hfind : pre.find? (fun x => !(seen.contains x)) = none := by
      simpa using emit_find_skip seen pre [] hpre
    cases fuel with
    | zero => rfl
    | succ f =>
      simp only [emitLoop, List.append_nil]
      rw [hfind]
  | cons r rest' ih =>
    intro pre seen fuel act hfuel hpre hseen hnd hself
    cases fuel with
    | zero => simp at hfuel
    | succ f =>
      have hrseen : r ∉ seen := hseen r (by simp)
      have hfind : (pre ++ r :: rest').find? (fun x => !(seen.contains x)) = some r := by
        rw [emit_find_skip seen pre _ hpre]
        simp [List.find?, hrseen]
      rw [List.nodup_cons] at hnd
      obtain ⟨hrmem, hnd'⟩ := hnd
      have hprek : applyRemovals pre (act r) = pre := by
        apply List.filter_eq_self.mpr
        intro x hx
        have hxr : x ≠ r := fun hxr => hrseen (hxr ▸ hpre x hx)
        have hxnot : x ∉ act r := fun hxin => hxr (hself r (by simp) x hxin)
        simp [hxnot]
      have hrestk : applyRemovals rest' (act r) = rest' := by
        apply List.filter_eq_self.mpr
        intro x hx
        have hxr : x ≠ r := fun hxr => hrmem (hxr ▸ hx)
        have hxnot : x ∉ act r := fun hxin => hxr (hself r (by simp) x hxin)
        simp [hxnot]
      have happ : applyRemovals (pre ++ r :: rest') (act r) =
          pre ++ (applyRemovals [r] (act r) ++ rest') := by
        have h1 : applyRemovals (pre ++ r :: rest') (act r) =
            applyRemovals pre (act r) ++ (applyRemovals [r] (act r) ++ applyRemovals rest' (act r)) := by
          by_cases hr2 : r ∈ act r <;>
            simp [applyRemovals, List.filter_append, List.filter_cons, hr2]
        rw [h1, hprek, hrestk]
      have hpre2 : ∀ x ∈ pre ++ applyRemovals [r] (act r), x ∈ seen ++ [r] := by
        intro x hx
        rcases List.mem_append.mp hx with hx | hx
        · exact List.mem_append.mpr (Or.inl (hpre x hx))
        · have : x = r := by
            rcases List.mem_filter.mp hx with ⟨hx1, -⟩
            simpa using hx1
          simp [this]
      have hseen2 : ∀ x ∈ rest', x ∉ seen ++ [r] := by
        intro x hx hmem
        rcases List.mem_append.mp hmem with hm | hm
        · exact hseen x (by simp [hx]) hm
        · exact hrmem ((by simpa using hm : x = r) ▸ hx)
      have hself2 : ∀ x ∈ rest', ∀ j ∈ act x, j = x := fun x hx => hself x (by simp [hx])
      have hfuel2 : rest'.length ≤ f := Nat.le_of_succ_le_succ (by simpa using hfuel)
      simp only [emitLoop]
      rw [hfind]
      show r :: emitLoop act f (seen ++ [r]) (applyRemovals (pre ++ r :: rest') (act r)) =
        r :: rest'
      rw [happ]
      rw [show pre ++ (applyRemovals [r] (act r) ++ rest') =
            (pre ++ applyRemovals [r] (act r)) ++ rest' from by simp]
      rw [ih (pre ++ applyRemovals [r] (act r)) (seen ++ [r]) f act hfuel2 hpre2 hseen2 hnd' hself2]

/-- C7 counterexample: with handlers `[1, 2]` registered at emit time and
handler 1 removing handler 2 during emission, `emit` — which iterates the live
handler set, not a snapshot — invokes only handler 1 and skips handler 2. -/
theorem c7_counterexample :
    emitRun removesTwo [1, 2] = [1] ∧ emitRun removesTwo [1, 2] ≠ [1, 2] := by
  refine ⟨by decide, by decide⟩

/-- C7 (amended): `emit` iterates the live handler set. When every handler
removes at most itself during emission (the `once` pattern and unrelated-event
cleanup), the handlers invoked are exactly the set registered at emit time, in
registration order; removing another handler for the same event that has not
yet been invoked skips it, as the counterexample shows. -/
theorem c7_emit_self_removal (l : List Nat) (act : Nat → List Nat) (hnd : l.Nodup)
    (hself : ∀ x ∈ l, ∀ j ∈ act x, j = x) :
    emitRun act l = l := by
  have h := emitLoop_self_removal l [] [] l.length act (Nat.le_refl _) (by simp) (by simp)
    hnd hself
  simpa [emitRun] using h

/-- Witness for the amended C7 at a concrete input: three handlers, the second
of which removes itself (a `once` wrapper); all three are invoked in order. -/
theorem c7_emit_self_removal_witness :
    ([5, 6, 7] : List Nat).Nodup ∧
    (∀ x ∈ ([5, 6, 7] : List Nat), ∀ j ∈ (fun i => if i = 6 then [6] else []) x, j = x) ∧
    emitRun (fun i => if i = 6 then [6] else []) [5, 6, 7] = [5, 6, 7] :=
  ⟨by decide, by decide,
    c7_emit_self_removal [5, 6, 7] (fun i => if i = 6 then [6] else []) (by decide) (by decide)⟩

/-! ## C6 -/

/-- C6 counterexample: with the shared cancellation token already signalled
before the first read, the Stream Processor read loop still reads both chunks
and yields both frames — the loop contains no token check at all, so it does
not stop reading when the token is signalled. -/
theorem c6_counterexample :
    processStreamEvents true ["data: a\n\n".toList, "data: b\n\n".toList] =
      [{ data := "a".toList }, { data := "b".toList }] ∧
    processStreamEvents true ["data: a\n\n".toList, "data: b\n\n".toList] =
      processStreamEvents false ["data: a\n\n".toList, "data: b\n\n".toList] := by
  refine ⟨by decide, rfl⟩

/-- C6 (amended): the Stream Processor read loop never consults the shared
cancellation token: its output is independent of the token state. Cancellation
is observed instead by the Runner loop, once per frame, which stops pulling
from the processor (whose unconditional cleanup then releases the reader). -/
theorem c6_loop_ignores_token (a b : Bool) (chunks : List (List Char)) :
    processStreamEvents a chunks = processStreamEvents b chunks :=
  rfl

/-! ## C5 -/

theorem runFrames_no_abort (fs : List RFrame) (s : RState) :
    ∀ e ∈ (runFrames s fs).2, isAbortEv e = false := by
  induction fs generalizing s with
  | nil => simp [runFrames]
  | cons f fs ih =>
    intro e he
    simp only [runFrames, List.mem_append] at he
    rcases he with he | he
    · exact (processFrame_events s f e he).2.1
    · exact ih _ e he

theorem dropThroughFirst_append (p : REvent → Bool) (l1 l2 : List REvent)
    (h : ∀ e ∈ l1, p e = false) :
    dropThroughFirst p (l1 ++ l2) = dropThroughFirst p l2 := by
  induction l1 with
  | nil => rfl
  | cons e l1 ih =>
    have he : p e = false := h e (by simp)
    have hrest : ∀ x ∈ l1, p x = false := fun x hx => h x (by simp [hx])
    simp [dropThroughFirst, he, ih hrest]

/-- C5 counterexample: `abort()` called synchronously from inside the `chunk`
handler of the first frame: the runner still emits that frame's
`content.delta` after the `abort` event, because the per-frame token check has
already passed for the in-flight frame. -/
theorem c5_counterexample :
    (runAbortDuringChunk [contentFrame "A" none, contentFrame "B" none] 0)[1]?
        = some REvent.abortEv ∧
    (runAbortDuringChunk [contentFrame "A" none, contentFrame "B" none] 0)[2]?
        = some (REvent.contentDelta "A" "A") := by
  refine ⟨by decide, by decide⟩

/-- C5 (amended): when `abort()` is called at a frame boundary, no `chunk` or
`content.delta` event is ever emitted after the first `abort` event — the
per-frame check precedes all processing of each subsequent frame — and a
pending `done()` rejects with the abort condition (once: a promise settles at
most once). Only the single in-flight frame may still emit events when
`abort()` is called from inside one of its handlers, as the counterexample
shows. -/
theorem c5_abort_boundary_monotone (fs : List RFrame) (k : Nat) (hk : k < fs.length) :
    (∀ e ∈ dropThroughFirst isAbortEv (runAbortAtBoundary fs k).2,
        isChunkEv e = false ∧ isContentDelta e = false) ∧
    doneResult false [REvent.abortEv, REvent.abortEv] = .rejectedAbort := by
  constructor
  · intro e he
    rw [runAbortAtBoundary, if_pos hk] at he
    rw [dropThroughFirst_append isAbortEv _ _ (runFrames_no_abort (fs.take k) {})] at he
    have : e = REvent.abortEv := by
      simpa [dropThroughFirst, isAbortEv] using he
    subst this
    exact ⟨rfl, rfl⟩
  · rfl

/-- Witness for the amended C5 at a concrete input. -/
theorem c5_abort_boundary_monotone_witness :
    1 < ([contentFrame "A" none, contentFrame "B" none] : List RFrame).length ∧
    ((∀ e ∈ dropThroughFirst isAbortEv
        (runAbortAtBoundary [contentFrame "A" none, contentFrame "B" none] 1).2,
        isChunkEv e = false ∧ isContentDelta e = false) ∧
      doneResult false [REvent.abortEv, REvent.abortEv] = .rejectedAbort) :=
  ⟨by decide, c5_abort_boundary_monotone [contentFrame "A" none, contentFrame "B" none] 1 (by decide)⟩

/-! ## C10 -/

theorem stepIt_flags_mono (s : ItState) (e : REvent) (h1 : s.hasError = true)
    (h2 : s.isComplete = true) :
    (stepIt s e).hasError = true ∧ (stepIt s e).isComplete = true := by
  cases e <;> simp [stepIt, h1, h2]

theorem foldl_stepIt_flags_mono (l : List REvent) (s : ItState) (h1 : s.hasError = true)
    (h2 : s.isComplete = true) :
    (l.foldl stepIt s).hasError = true ∧ (l.foldl stepIt s).isComplete = true := by
  induction l generalizing s with
  | nil => exact ⟨h1, h2⟩
  | cons e l ih =>
    obtain ⟨m1, m2⟩ := stepIt_flags_mono s e h1 h2
    simpa [List.foldl_cons] using ih (stepIt s e) m1 m2

theorem foldl_stepIt_flags_of_error_mem (l : List REvent) (s : ItState)
    (h : REvent.errorEv ∈ l) :
    (l.foldl stepIt s).hasError = true ∧ (l.foldl stepIt s).isComplete = true := by
  induction l generalizing s with
  | nil => simp at h
  | cons e l ih =>
    rcases List.mem_cons.mp h with rfl | hmem
    · have h1 : (stepIt s REvent.errorEv).hasError = true := by simp [stepIt]
      have h2 : (stepIt s REvent.errorEv).isComplete = true := by simp [stepIt]
      simpa [List.foldl_cons] using foldl_stepIt_flags_mono l (stepIt s REvent.errorEv) h1 h2
    · simpa [List.foldl_cons] using ih (stepIt s e) hmem

theorem nextIt_thrown_of_flags (s : ItState) (h1 : s.hasError = true) (h2 : s.isComplete = true) :
    nextIt s = (.thrown, s) := by
  simp [nextIt, h1, h2]

/-- Processing a frame that emits an `error` event leaves the runner state
unchanged (the per-frame catch recovers). -/
theorem processFrame_error_state (s : RState) (f : RFrame) (hf : emitsError f = true) :
    (processFrame s f).1 = s := by
  match f with
  | .badJSON => rfl
  | .ok c =>
    match hch : c.choices with
    | none => simp [processFrame, hch]
    | some chs => simp [emitsError, hch] at hf

theorem processFrame_error_mem (s : RState) (f : RFrame) (hf : emitsError f = true) :
    REvent.errorEv ∈ (processFrame s f).2 := by
  match f with
  | .badJSON => simp [processFrame]
  | .ok c =>
    match hch : c.choices with
    | none => simp [processFrame, hch]
    | some chs => simp [emitsError, hch] at hf

theorem runFrames_contentNoFin (cs : List String) (s : RState) :
    (runFrames s (cs.map (fun c => contentFrame c none))).1 =
      { s with contentSnapshot := s.contentSnapshot ++ concatList cs } := by
  induction cs generalizing s with
  | nil => simp [runFrames, concatList, String.append_empty]
  | cons c cs ih =>
    have hstep : (processFrame s (contentFrame c none)).1 =
        { s with contentSnapshot := s.contentSnapshot ++ c } := by
      by_cases hc : c = "" <;>
        simp [processFrame, contentFrame, contentStep, toolStep, finishStep, truthy, hc,
          String.append_empty]
    simp only [List.map_cons, runFrames, hstep, ih]
    simp [concatList, String.append_assoc]

theorem concatList_append (a b : List String) :
    concatList (a ++ b) = concatList a ++ concatList b := by
  induction a with
  | nil => simp [concatList]
  | cons x a ih =>
    show x ++ concatList (a ++ b) = (x ++ concatList a) ++ concatList b
    rw [ih]
    exact (String.append_assoc x (concatList a) (concatList b)).symm

/-- C10: any single per-frame error event (malformed JSON, or a decoded
payload without a usable `choices` array) permanently poisons the pull-based
iterator: once the `error` event has been folded into the iterator state,
`next()` throws and leaves the state unchanged (so every subsequent `next()`
also throws and yields no further chunks), the recorded error survives any
further events, while the consumption loop continues — later frames still
update the snapshots and `finalContent()` still resolves with the final
value. -/
theorem c10_error_poisons_iterator (cs1 cs2 : List String) (f : RFrame)
    (hf : emitsError f = true) :
    nextIt (itFold (runStream ((cs1.map (fun c => contentFrame c none)) ++ [f]
        ++ (cs2.map (fun c => contentFrame c none)))).2) =
      (.thrown, itFold (runStream ((cs1.map (fun c => contentFrame c none)) ++ [f]
        ++ (cs2.map (fun c => contentFrame c none)))).2) ∧
    (runStream ((cs1.map (fun c => contentFrame c none)) ++ [f]
        ++ (cs2.map (fun c => contentFrame c none)))).1.finalContent =
      some (concatList cs1 ++ concatList cs2) ∧
    (runStream ((cs1.map (fun c => contentFrame c none)) ++ [f]
        ++ (cs2.map (fun c => contentFrame c none)))).1.isComplete = true ∧
    (∀ (s : ItState) (e : REvent), s.hasError = true → (stepIt s e).hasError = true) := by
  have hA := runFrames_contentNoFin cs1 ({} : RState)
  rw [show ({} : RState).contentSnapshot = "" from rfl, String.empty_append] at hA
  have hsplit1 := runFrames_append ({} : RState) (cs1.map (fun c => contentFrame c none)) [f]
  have hsplit2 := runFrames_append ({} : RState)
    ((cs1.map (fun c => contentFrame c none)) ++ [f]) (cs2.map (fun c => contentFrame c none))
  have hAf : (runFrames {} ((cs1.map (fun c => contentFrame c none)) ++ [f])).1 =
      (runFrames {} (cs1.map (fun c => contentFrame c none))).1 := by
    rw [hsplit1]
    show (runFrames (runFrames {} (cs1.map (fun c => contentFrame c none))).1 [f]).1 = _
    simp only [runFrames]
    exact processFrame_error_state _ f hf
  have hstateAll : (runFrames {} ((cs1.map (fun c => contentFrame c none)) ++ [f]
      ++ (cs2.map (fun c => contentFrame c none)))).1 =
      { contentSnapshot := concatList cs1 ++ concatList cs2 } := by
    rw [hsplit2]
    show (runFrames (runFrames {} ((cs1.map (fun c => contentFrame c none)) ++ [f])).1
      (cs2.map (fun c => contentFrame c none))).1 = _
    rw [hAf, hA, runFrames_contentNoFin]
  have hfinal : (runStream ((cs1.map (fun c => contentFrame c none)) ++ [f]
      ++ (cs2.map (fun c => contentFrame c none)))).1.finalContent =
      some (concatList cs1 ++ concatList cs2) := by
    rw [runStream_eq]
    show (epilogue (runFrames {} ((cs1.map (fun c => contentFrame c none)) ++ [f]
      ++ (cs2.map (fun c => contentFrame c none)))).1).1.finalContent = _
    rw [hstateAll]
    rfl
  have hcompleteRS : (runStream ((cs1.map (fun c => contentFrame c none)) ++ [f]
      ++ (cs2.map (fun c => contentFrame c none)))).1.isComplete = true := by
    rw [runStream_eq]
    show (epilogue (runFrames {} ((cs1.map (fun c => contentFrame c none)) ++ [f]
      ++ (cs2.map (fun c => contentFrame c none)))).1).1.isComplete = _
    rw [hstateAll]
    rfl
  have hmem : REvent.errorEv ∈ (runStream ((cs1.map (fun c => contentFrame c none)) ++ [f]
      ++ (cs2.map (fun c => contentFrame c none)))).2 := by
    rw [runStream_eq]
    apply List.mem_append.mpr
    left
    rw [hsplit2]
    show REvent.errorEv ∈ (runFrames {} ((cs1.map (fun c => contentFrame c none)) ++ [f])).2
      ++ (runFrames (runFrames {} ((cs1.map (fun c => contentFrame c none)) ++ [f])).1
        (cs2.map (fun c => contentFrame c none))).2
    apply List.mem_append.mpr
    left
    rw [hsplit1]
    show REvent.errorEv ∈ (runFrames {} (cs1.map (fun c => contentFrame c none))).2
      ++ (runFrames (runFrames {} (cs1.map (fun c => contentFrame c none))).1 [f]).2
    apply List.mem_append.mpr
    right
    show REvent.errorEv ∈
      (processFrame (runFrames {} (cs1.map (fun c => contentFrame c none))).1 f).2 ++ []
    simpa using processFrame_error_mem _ f hf
  have hflags := foldl_stepIt_flags_of_error_mem _ ({} : ItState) hmem
  exact ⟨nextIt_thrown_of_flags _ hflags.1 hflags.2, hfinal, hcompleteRS,
    fun s e h => by cases e <;> simp [stepIt, h]⟩

/-- Witness for C10 at a concrete input. -/
theorem c10_error_poisons_iterator_witness :
    emitsError RFrame.badJSON = true ∧
    (nextIt (itFold (runStream ((["Hello"].map (fun c => contentFrame c none)) ++ [RFrame.badJSON]
        ++ ([" world"].map (fun c => contentFrame c none)))).2) =
      (.thrown, itFold (runStream ((["Hello"].map (fun c => contentFrame c none)) ++ [RFrame.badJSON]
        ++ ([" world"].map (fun c => contentFrame c none)))).2) ∧
    (runStream ((["Hello"].map (fun c => contentFrame c none)) ++ [RFrame.badJSON]
        ++ ([" world"].map (fun c => contentFrame c none)))).1.finalContent =
      some (concatList ["Hello"] ++ concatList [" world"]) ∧
    (runStream ((["Hello"].map (fun c => contentFrame c none)) ++ [RFrame.badJSON]
        ++ ([" world"].map (fun c => contentFrame c none)))).1.isComplete = true ∧
    (∀ (s : ItState) (e : REvent), s.hasError = true → (stepIt s e).hasError = true)) :=
  ⟨by decide, c10_error_poisons_iterator ["Hello"] [" world"] RFrame.badJSON (by decide)⟩

/-! ## C4 -/

theorem runFrames_no_settling (fs : List RFrame) (s : RState)
    (hfs : ∀ f ∈ fs, emitsError f = false) :
    ∀ e ∈ (runFrames s fs).2, isSettling e = false := by
  induction fs generalizing s with
  | nil => simp [runFrames]
  | cons f fs ih =>
    intro e he
    simp only [runFrames, List.mem_append] at he
    rcases he with he | he
    · exact (processFrame_events s f e he).2.2.1 (hfs f (by simp))
    · exact ih _ (fun g hg => hfs g (by simp [hg])) e he

theorem runCompFrames_append (s : CState) (a b : List CFrame) :
    runCompFrames s (a ++ b) =
      ((runCompFrames (runCompFrames s a).1 b).1,
        (runCompFrames s a).2 ++ (runCompFrames (runCompFrames s a).1 b).2) := by
  induction a generalizing s with
  | nil => simp [runCompFrames]
  | cons f fs ih => simp [runCompFrames, ih]

theorem textStep_events (s : CState) (txt : Option String) :
    ∀ e ∈ (textStep s txt).2, isSettling e = false := by
  match txt with
  | none => simp [textStep]
  | some t =>
    by_cases ht : t = "" <;> simp [textStep, ht, isSettling]

theorem compFinishStep_events (s : CState) (fin : Option String) :
    ∀ e ∈ (compFinishStep s fin).2, isSettling e = false := by
  by_cases hf : truthy fin = true <;> simp [compFinishStep, hf, isSettling]

theorem processCompFrame_no_settling (s : CState) (f : CFrame)
    (hf : compEmitsError f = false) :
    ∀ e ∈ (processCompFrame s f).2, isSettling e = false := by
  match f with
  | .badJSON => simp [compEmitsError] at hf
  | .ok c =>
    match hch : c.choices with
    | none => simp [compEmitsError, hch] at hf
    | some chs =>
      intro e he
      simp only [processCompFrame, hch, List.mem_cons, List.mem_append] at he
      rcases he with rfl | (he | he)
      · rfl
      · exact textStep_events s _ e he
      · exact compFinishStep_events _ _ e he

theorem runCompFrames_no_settling (fs : List CFrame) (s : CState)
    (hfs : ∀ f ∈ fs, compEmitsError f = false) :
    ∀ e ∈ (runCompFrames s fs).2, isSettling e = false := by
  induction fs generalizing s with
  | nil => simp [runCompFrames]
  | cons f fs ih =>
    intro e he
    simp only [runCompFrames, List.mem_append] at he
    rcases he with he | he
    · exact processCompFrame_no_settling s f (hfs f (by simp)) e he
    · exact ih _ (fun g hg => hfs g (by simp [hg])) e he

theorem epilogue_find_settling (s : RState) :
    (epilogue s).2.find? isSettling = some REvent.endEv := by
  by_cases hc : s.isComplete = true <;> simp [epilogue, hc, List.find?, isSettling]

theorem compEpilogue_find_settling (s : CState) :
    (compEpilogue s).2.find? isSettling = some REvent.endEv := by
  by_cases hc : s.isComplete = true <;> simp [compEpilogue, hc, List.find?, isSettling]

/-- C4 counterexample, both divergences at concrete inputs.
First: the runner is aborted after its first frame (the loop has returned, its
trace is over, `isComplete` is still `false`); a `done()` call made after that
point finds `isComplete = false`, registers `once` handlers, and no further
event ever fires — the promise never settles, contradicting "settles
immediately when already in a terminal state".
Second: `done()` called at construction on a stream whose first frame is
malformed JSON rejects with that recovered per-frame error even though the
runner state becomes `complete`, contradicting "resolves when state becomes
complete / rejects (only) when it becomes errored". -/
theorem c4_counterexample :
    (runAbortAtBoundary [contentFrame "A" none, contentFrame "B" none] 1).1.isComplete = false ∧
    doneResult
        ((runAbortAtBoundary [contentFrame "A" none, contentFrame "B" none] 1).1.isComplete)
        [] = .pending ∧
    (runStream [RFrame.badJSON, contentFrame "A" (some "stop")]).1.isComplete = true ∧
    doneResult false ((runStream [RFrame.badJSON, contentFrame "A" (some "stop")]).2)
        = .rejectedError := by
  refine ⟨by decide, by decide, by decide, by decide⟩

/-- C4 (amended): `done()` settles immediately only when the runner is already
`complete`; otherwise it settles with the first subsequent `end`, `error` or
`abort` event — `end` resolves it, an `error` event rejects it (including a
recovered per-frame parse error, even though streaming continues), `abort`
rejects it with the abort condition. In an uninterrupted error-free run
(chat or completion variant) `done()` always resolves; if no settling event
ever follows the call (the runner already aborted or errored and its loop
returned), the promise never settles. -/
theorem c4_done_settlement :
    (∀ (fut : List REvent), doneResult true fut = .resolved) ∧
    (∀ (fs : List RFrame) (k : Nat), (∀ f ∈ fs.drop k, emitsError f = false) →
      doneResult (stateAt fs k).isComplete (chatFuture fs k) = .resolved) ∧
    (∀ (gs : List CFrame) (k : Nat), (∀ f ∈ gs.drop k, compEmitsError f = false) →
      doneResult (compStateAt gs k).isComplete (compFuture gs k) = .resolved) ∧
    (∀ (evs : List REvent), (∀ e ∈ evs, isSettling e = false) →
      doneResult false (evs ++ [REvent.abortEv, REvent.abortEv]) = .rejectedAbort) ∧
    doneResult false ((runStream [RFrame.badJSON, contentFrame "A" (some "stop")]).2)
        = .rejectedError ∧
    doneResult false [] = .pending := by
  refine ⟨fun fut => rfl, ?_, ?_, ?_, by decide, rfl⟩
  · intro fs k hfree
    by_cases hc : (stateAt fs k).isComplete = true
    · simp [doneResult, hc]
    · have hc' : (stateAt fs k).isComplete = false := by simpa using hc
      rw [hc']
      show doneResult false ((runFrames (stateAt fs k) (fs.drop k)).2
        ++ (epilogue (runFrames (stateAt fs k) (fs.drop k)).1).2) = .resolved
      have h1 : (runFrames (stateAt fs k) (fs.drop k)).2.find? isSettling = none :=
        List.find?_eq_none.mpr
          (fun e he => by simp [runFrames_no_settling (fs.drop k) (stateAt fs k) hfree e he])
      simp [doneResult, List.find?_append, h1, epilogue_find_settling]
  · intro gs k hfree
    by_cases hc : (compStateAt gs k).isComplete = true
    · simp [doneResult, hc]
    · have hc' : (compStateAt gs k).isComplete = false := by simpa using hc
      rw [hc']
      show doneResult false ((runCompFrames (compStateAt gs k) (gs.drop k)).2
        ++ (compEpilogue (runCompFrames (compStateAt gs k) (gs.drop k)).1).2) = .resolved
      have h1 : (runCompFrames (compStateAt gs k) (gs.drop k)).2.find? isSettling = none :=
        List.find?_eq_none.mpr
          (fun e he => by
            simp [runCompFrames_no_settling (gs.drop k) (compStateAt gs k) hfree e he])
      simp [doneResult, List.find?_append, h1, compEpilogue_find_settling]
  · intro evs hfree
    have h1 : evs.find? isSettling = none :=
      List.find?_eq_none.mpr (fun e he => by simp [hfree e he])
    simp [doneResult, List.find?_append, h1, List.find?, isSettling]

/-- Witness for the amended C4 at concrete inputs. -/
theorem c4_done_settlement_witness :
    (∀ f ∈ ([contentFrame "A" (some "stop")] : List RFrame).drop 0, emitsError f = false) ∧
    doneResult (stateAt [contentFrame "A" (some "stop")] 0).isComplete
        (chatFuture [contentFrame "A" (some "stop")] 0) = .resolved ∧
    (∀ f ∈ ([] : List CFrame).drop 0, compEmitsError f = false) ∧
    doneResult (compStateAt [] 0).isComplete (compFuture [] 0) = .resolved ∧
    doneResult false ([REvent.chunkEv { choices := some [] }]
        ++ [REvent.abortEv, REvent.abortEv]) = .rejectedAbort ∧
    doneResult true [] = .resolved :=
  ⟨by decide,
    c4_done_settlement.2.1 [contentFrame "A" (some "stop")] 0 (by decide),
    by decide,
    c4_done_settlement.2.2.1 [] 0 (by decide),
    c4_done_settlement.2.2.2.1 [REvent.chunkEv { choices := some [] }] (by decide),
    c4_done_settlement.1 []⟩

end NeuroapiSdk

